import Mathlib

/-!
Shallow embedding of `src/concrete/ml/quantization/quantized_array.py`: the
`QuantizedArray` class, its two constructor branches, the parameter-derivation
algorithm `compute_quantization_parameters`, and the `quant`, `dequant`,
`update_values` and `update_qvalues` operations.

Real (numpy float) values are modelled as exact rationals; the numpy rounding
functions `rint` and `round` are modelled as round-half-to-even, which is the
rounding mode both of them use; numpy arrays are modelled as lists.
-/

/-- Round-half-to-even on rationals: the rounding performed by numpy `rint`
and numpy `round`. -/
def rint (x : ℚ) : ℤ :=
  if x - ⌊x⌋ < 1/2 then ⌊x⌋
  else if 1/2 < x - ⌊x⌋ then ⌊x⌋ + 1
  else if ⌊x⌋ % 2 = 0 then ⌊x⌋ else ⌊x⌋ + 1

/-- numpy `clip` on an integer: `min (max x lo) hi`. -/
def clip (x lo hi : ℤ) : ℤ := min (max x lo) hi

/-- The stability constant `10 ** -6` of `QuantizedArray`. -/
def STABILITY_CONST : ℚ := 1 / 1000000

/-- Maximum of a list of rationals (numpy `max` of a non-empty array). -/
def listMax (l : List ℚ) : ℚ := l.foldl max (l.headD 0)

/-- Minimum of a list of rationals (numpy `min` of a non-empty array). -/
def listMin (l : List ℚ) : ℚ := l.foldl min (l.headD 0)

/-- One element of the expression
`numpy.rint(values / scale + zero_point).clip(-offset, 2 ** n_bits - 1 - offset).astype(int)`
shared by `compute_quantization_parameters` and `quant`. -/
def quantizeOne (scale : ℚ) (zero_point offset : ℤ) (n_bits : ℕ) (v : ℚ) : ℤ :=
  clip (rint (v / scale + (zero_point : ℚ))) (-offset) (2 ^ n_bits - 1 - offset)

/-- One element of `self.scale * (self.qvalues + -(self.zero_point))` from `dequant`. -/
def dequantizeOne (scale : ℚ) (zero_point : ℤ) (q : ℤ) : ℚ :=
  scale * ((q : ℚ) + -(zero_point : ℚ))

/-- State of a `QuantizedArray` object. -/
structure QuantizedArray where
  n_bits : ℕ
  is_signed : Bool
  offset : ℤ
  values : List ℚ
  qvalues : List ℤ
  scale : ℚ
  zero_point : ℤ
deriving DecidableEq

/-- The branch structure of `compute_quantization_parameters` choosing
`(offset, scale, zero_point)`: the degenerate constant-array case (with its
near-zero sub-case) forces `offset` to `0`; the general case keeps `offset`
and rounds the affine zero point. -/
def deriveParams (n_bits : ℕ) (offset : ℤ) (values : List ℚ) : ℤ × ℚ × ℤ :=
  let rmax := listMax values
  let rmin := listMin values
  if rmax - rmin < STABILITY_CONST then
    if |rmax| < STABILITY_CONST then
      (0, 1, rint (-rmin))
    else
      (0, rmax / ((2 : ℚ) ^ n_bits - 1), 0)
  else
    (offset,
     if rmax ≠ rmin then (rmax - rmin) / ((2 : ℚ) ^ n_bits - 1) else 1,
     rint ((rmax * (-(offset : ℚ)) - rmin * ((2 : ℚ) ^ n_bits - 1 - (offset : ℚ)))
       / (rmax - rmin)))

/-- Body of `compute_quantization_parameters`: derive `(offset, scale,
zero_point)` by the branches above, then quantize every value with them.
Returns `(offset, scale, zero_point, qvalues)`; the Python method mutates
`self.offset` in place and returns the other three. -/
def compute_quantization_parameters (n_bits : ℕ) (offset : ℤ) (values : List ℚ) :
    ℤ × ℚ × ℤ × List ℤ :=
  let p := deriveParams n_bits offset values
  (p.1, p.2.1, p.2.2, values.map (quantizeOne p.2.1 p.2.2 p.1 n_bits))

/-- Value of `self.offset` set at the top of `__init__`:
`2 ** (n_bits - 1)` when signed, else `0`. -/
def initialOffset (n_bits : ℕ) (is_signed : Bool) : ℤ :=
  if is_signed then 2 ^ (n_bits - 1) else 0

/-- Constructor branch `value_is_float = True` of `__init__`: deep-copy the
real values and derive scale, zero point and quantized values. -/
def initFromFloats (n_bits : ℕ) (is_signed : Bool) (values : List ℚ) : QuantizedArray :=
  let p := compute_quantization_parameters n_bits (initialOffset n_bits is_signed) values
  { n_bits := n_bits, is_signed := is_signed, offset := p.1,
    values := values, qvalues := p.2.2.2, scale := p.2.1, zero_point := p.2.2.1 }

/-- Errors surfaced by construction. -/
inductive QuantError where
  | invalidArgument
deriving DecidableEq

/-- Constructor branch `value_is_float = False` of `__init__`.
Modelled from the spec: `assert_true` (imported from `..common.debugging`,
which is not under `src/`) fails the construction with an `InvalidArgument`
error when its condition is false, so a missing `scale` or `zero_point`
yields `InvalidArgument` and no object. Otherwise the codes are deep-copied
into `qvalues` and `dequant` populates `values`. -/
def initFromQuantized (n_bits : ℕ) (is_signed : Bool) (qvalues : List ℤ)
    (scale : Option ℚ) (zero_point : Option ℤ) : Except QuantError QuantizedArray :=
  match scale, zero_point with
  | some sc, some zp =>
      Except.ok { n_bits := n_bits, is_signed := is_signed,
                  offset := initialOffset n_bits is_signed,
                  values := qvalues.map (dequantizeOne sc zp),
                  qvalues := qvalues, scale := sc, zero_point := zp }
  | _, _ => Except.error QuantError.invalidArgument

/-- Method `quant`: requantize `self.values` with the stored parameters. -/
def QuantizedArray.quant (a : QuantizedArray) : QuantizedArray :=
  { a with qvalues := a.values.map (quantizeOne a.scale a.zero_point a.offset a.n_bits) }

/-- Method `dequant`: recompute `self.values` from `self.qvalues`. -/
def QuantizedArray.dequant (a : QuantizedArray) : QuantizedArray :=
  { a with values := a.qvalues.map (dequantizeOne a.scale a.zero_point) }

/-- Method `update_values`: deep-copy new real values, then `quant`. -/
def QuantizedArray.update_values (a : QuantizedArray) (values : List ℚ) : QuantizedArray :=
  QuantizedArray.quant { a with values := values }

/-- Method `update_qvalues`: deep-copy new quantized values, then `dequant`. -/
def QuantizedArray.update_qvalues (a : QuantizedArray) (qvalues : List ℤ) : QuantizedArray :=
  QuantizedArray.dequant { a with qvalues := qvalues }

/-! ### Arithmetic helper lemmas -/

lemma rint_abs_le (x : ℚ) : |((rint x : ℤ) : ℚ) - x| ≤ 1/2 := by
  have h0 : (⌊x⌋ : ℚ) ≤ x := Int.floor_le x
  have h1 : x < (⌊x⌋ : ℚ) + 1 := Int.lt_floor_add_one x
  unfold rint
  split_ifs with hlt hgt hev
  · rw [abs_le]
    constructor <;> [linarith; linarith]
  · push_cast
    rw [abs_le]
    push_neg at hlt
    constructor <;> [linarith; linarith]
  · push_neg at hlt hgt
    rw [abs_le]
    constructor <;> [linarith; linarith]
  · push_neg at hlt hgt
    push_cast
    rw [abs_le]
    constructor <;> [linarith; linarith]

lemma le_clip (x lo hi : ℤ) (h : lo ≤ hi) : lo ≤ clip x lo hi := by
  unfold clip
  exact le_min (le_max_right x lo) h

lemma clip_le (x lo hi : ℤ) : clip x lo hi ≤ hi := min_le_right _ _

lemma clip_eq_of_between (x lo hi : ℤ) (h1 : lo ≤ x) (h2 : x ≤ hi) : clip x lo hi = x := by
  unfold clip
  rw [max_eq_left h1, min_eq_left h2]

/-- A rounded-then-clipped value stays within `1/2` of the raw value, provided
the raw value is within `1/2` of the clipping interval. -/
lemma clip_rint_near (lo hi : ℤ) (r : ℚ) (hlh : lo ≤ hi)
    (hlo : (lo : ℚ) - 1/2 ≤ r) (hhi : r ≤ (hi : ℚ) + 1/2) :
    |((clip (rint r) lo hi : ℤ) : ℚ) - r| ≤ 1/2 := by
  have hr := rint_abs_le r
  rw [abs_le] at hr
  rcases lt_or_le (rint r) lo with hl | hl
  · have hcl : clip (rint r) lo hi = lo := by
      unfold clip
      rw [max_eq_right hl.le, min_eq_left hlh]
    rw [hcl, abs_le]
    have : ((rint r : ℤ) : ℚ) + 1 ≤ (lo : ℚ) := by exact_mod_cast hl
    constructor <;> linarith
  · rcases le_or_lt (rint r) hi with hh | hh
    · rw [clip_eq_of_between _ _ _ hl hh]
      exact rint_abs_le r
    · have hcl : clip (rint r) lo hi = hi := by
        unfold clip
        rw [max_eq_left hl, min_eq_right hh.le]
      rw [hcl, abs_le]
      have : (hi : ℚ) + 1 ≤ ((rint r : ℤ) : ℚ) := by exact_mod_cast hh
      constructor <;> linarith

lemma le_foldl_max (l : List ℚ) (a : ℚ) : a ≤ l.foldl max a := by
  induction l generalizing a with
  | nil => exact le_refl a
  | cons b t ih => exact le_trans (le_max_left a b) (ih (max a b))

lemma mem_le_foldl_max (l : List ℚ) (a v : ℚ) (hv : v ∈ l) : v ≤ l.foldl max a := by
  induction l generalizing a with
  | nil => cases hv
  | cons b t ih =>
    rcases List.mem_cons.mp hv with h | h
    · subst h
      exact le_trans (le_max_right a v) (le_foldl_max t _)
    · exact ih (max a b) h

lemma le_listMax (l : List ℚ) (v : ℚ) (hv : v ∈ l) : v ≤ listMax l :=
  mem_le_foldl_max l _ v hv

lemma foldl_min_le (l : List ℚ) (a : ℚ) : l.foldl min a ≤ a := by
  induction l generalizing a with
  | nil => exact le_refl a
  | cons b t ih => exact le_trans (ih (min a b)) (min_le_left a b)

lemma foldl_min_le_mem (l : List ℚ) (a v : ℚ) (hv : v ∈ l) : l.foldl min a ≤ v := by
  induction l generalizing a with
  | nil => cases hv
  | cons b t ih =>
    rcases List.mem_cons.mp hv with h | h
    · subst h
      exact le_trans (foldl_min_le t _) (min_le_right a v)
    · exact ih (min a b) h

lemma listMin_le (l : List ℚ) (v : ℚ) (hv : v ∈ l) : listMin l ≤ v :=
  foldl_min_le_mem l _ v hv

/-! ### Basic facts about the embedded operations -/

lemma quantizeOne_range (scale : ℚ) (zp off : ℤ) (n : ℕ) (v : ℚ) :
    -off ≤ quantizeOne scale zp off n v ∧ quantizeOne scale zp off n v ≤ 2 ^ n - 1 - off := by
  have hpow : (0 : ℤ) < 2 ^ n := pow_pos (by norm_num) n
  have h : -off ≤ 2 ^ n - 1 - off := by omega
  exact ⟨le_clip _ _ _ h, clip_le _ _ _⟩

lemma stability_pos : (0 : ℚ) < STABILITY_CONST := by norm_num [STABILITY_CONST]

lemma two_pow_sub_one_pos (n : ℕ) (hn : 1 ≤ n) : (0 : ℚ) < 2 ^ n - 1 := by
  have h2 : (2 : ℚ) ^ 1 ≤ 2 ^ n := pow_le_pow_right₀ (by norm_num) hn
  norm_num at h2
  linarith

lemma deriveParams_const_zero (n : ℕ) (off : ℤ) (vals : List ℚ)
    (hd : listMax vals - listMin vals < STABILITY_CONST)
    (hz : |listMax vals| < STABILITY_CONST) :
    deriveParams n off vals = (0, 1, rint (-(listMin vals))) := by
  simp only [deriveParams, if_pos hd, if_pos hz]

lemma deriveParams_const_nonzero (n : ℕ) (off : ℤ) (vals : List ℚ)
    (hd : listMax vals - listMin vals < STABILITY_CONST)
    (hnz : ¬ |listMax vals| < STABILITY_CONST) :
    deriveParams n off vals = (0, listMax vals / ((2 : ℚ) ^ n - 1), 0) := by
  simp only [deriveParams, if_pos hd, if_neg hnz]

lemma deriveParams_general (n : ℕ) (off : ℤ) (vals : List ℚ)
    (hnd : ¬ (listMax vals - listMin vals < STABILITY_CONST)) :
    deriveParams n off vals =
      (off, (listMax vals - listMin vals) / ((2 : ℚ) ^ n - 1),
       rint ((listMax vals * (-(off : ℚ)) - listMin vals * ((2 : ℚ) ^ n - 1 - (off : ℚ)))
         / (listMax vals - listMin vals))) := by
  have hne : listMax vals ≠ listMin vals := by
    have h := not_lt.mp hnd
    have heps := stability_pos
    intro hc
    rw [hc, sub_self] at h
    linarith
  simp only [deriveParams, if_neg hnd, if_pos hne]

lemma initFromFloats_values (n : ℕ) (s : Bool) (vals : List ℚ) :
    (initFromFloats n s vals).values = vals := rfl

lemma initFromFloats_n_bits (n : ℕ) (s : Bool) (vals : List ℚ) :
    (initFromFloats n s vals).n_bits = n := rfl

lemma initFromFloats_scale (n : ℕ) (s : Bool) (vals : List ℚ) :
    (initFromFloats n s vals).scale = (deriveParams n (initialOffset n s) vals).2.1 := rfl

lemma initFromFloats_zero_point (n : ℕ) (s : Bool) (vals : List ℚ) :
    (initFromFloats n s vals).zero_point = (deriveParams n (initialOffset n s) vals).2.2 := rfl

lemma initFromFloats_offset (n : ℕ) (s : Bool) (vals : List ℚ) :
    (initFromFloats n s vals).offset = (deriveParams n (initialOffset n s) vals).1 := rfl

lemma initFromFloats_qvalues (n : ℕ) (s : Bool) (vals : List ℚ) :
    (initFromFloats n s vals).qvalues =
      vals.map (quantizeOne (initFromFloats n s vals).scale
        (initFromFloats n s vals).zero_point (initFromFloats n s vals).offset n) := rfl

/-! ### Claim theorems -/

/-- C1 counterexample: the claimed range invariant does not survive
`update_qvalues`: on a 2-bit unsigned array, `update_qvalues [1000]` stores
the code `1000` unchecked, and `1000` exceeds `2 ^ 2 - 1 - 0 = 3`. -/
theorem C1_counterexample :
    ((initFromFloats 2 false [0]).update_qvalues [1000]).qvalues = [1000] ∧
    ((initFromFloats 2 false [0]).update_qvalues [1000]).offset = 0 ∧
    ((initFromFloats 2 false [0]).update_qvalues [1000]).n_bits = 2 ∧
    ¬ ((1000 : ℤ) ≤ 2 ^ (2 : ℕ) - 1 - 0) := by
  refine ⟨rfl, ?_, rfl, by norm_num⟩
  show (initFromFloats 2 false [0]).offset = 0
  norm_num [initFromFloats, compute_quantization_parameters, deriveParams, listMax, listMin,
    STABILITY_CONST, initialOffset]

/-- C1 (amended): every element of `qvalues` lies in
`[-offset, 2 ^ n_bits - 1 - offset]` after the operations that recompute the
codes by rounding and clipping — construction from real values, `quant`, and
`update_values` — and `dequant` leaves `qvalues` unchanged; construction from
pre-quantized values and `update_qvalues` store the caller's codes verbatim,
so after them the range holds only if the supplied codes already satisfy it. -/
theorem C1_range_invariant (a : QuantizedArray) (n : ℕ) (s : Bool) (vals : List ℚ)
    (q1 q2 q3 : ℤ)
    (h1 : q1 ∈ (initFromFloats n s vals).qvalues)
    (h2 : q2 ∈ a.quant.qvalues)
    (h3 : q3 ∈ (a.update_values vals).qvalues) :
    (-(initFromFloats n s vals).offset ≤ q1 ∧
      q1 ≤ 2 ^ n - 1 - (initFromFloats n s vals).offset) ∧
    (-a.offset ≤ q2 ∧ q2 ≤ 2 ^ a.n_bits - 1 - a.offset) ∧
    (-a.offset ≤ q3 ∧ q3 ≤ 2 ^ a.n_bits - 1 - a.offset) ∧
    a.dequant.qvalues = a.qvalues := by
  have h1' : q1 ∈ vals.map (quantizeOne (initFromFloats n s vals).scale
      (initFromFloats n s vals).zero_point (initFromFloats n s vals).offset n) := h1
  have h2' : q2 ∈ a.values.map (quantizeOne a.scale a.zero_point a.offset a.n_bits) := h2
  have h3' : q3 ∈ vals.map (quantizeOne a.scale a.zero_point a.offset a.n_bits) := h3
  refine ⟨?_, ?_, ?_, rfl⟩
  · rcases List.mem_map.mp h1' with ⟨v, _, rfl⟩
    exact quantizeOne_range _ _ _ _ _
  · rcases List.mem_map.mp h2' with ⟨v, _, rfl⟩
    exact quantizeOne_range _ _ _ _ _
  · rcases List.mem_map.mp h3' with ⟨v, _, rfl⟩
    exact quantizeOne_range _ _ _ _ _

/-- Witness for C1 (amended) at a concrete 2-bit array. -/
theorem C1_range_invariant_witness :
    (-(initFromFloats 2 false [5]).offset ≤ 3 ∧
      (3 : ℤ) ≤ 2 ^ 2 - 1 - (initFromFloats 2 false [5]).offset) ∧
    (-(initFromFloats 2 false [5]).offset ≤ 3 ∧
      (3 : ℤ) ≤ 2 ^ (initFromFloats 2 false [5]).n_bits - 1 - (initFromFloats 2 false [5]).offset) ∧
    (-(initFromFloats 2 false [5]).offset ≤ 3 ∧
      (3 : ℤ) ≤ 2 ^ (initFromFloats 2 false [5]).n_bits - 1 - (initFromFloats 2 false [5]).offset) ∧
    (initFromFloats 2 false [5]).dequant.qvalues = (initFromFloats 2 false [5]).qvalues := by
  have hm1 : (3 : ℤ) ∈ (initFromFloats 2 false [5]).qvalues := by
    norm_num [initFromFloats, compute_quantization_parameters, deriveParams, listMax, listMin,
      STABILITY_CONST, initialOffset, quantizeOne, clip, rint]
  have hm2 : (3 : ℤ) ∈ (initFromFloats 2 false [5]).quant.qvalues := by
    norm_num [initFromFloats, compute_quantization_parameters, deriveParams, listMax, listMin,
      STABILITY_CONST, initialOffset, quantizeOne, clip, rint, QuantizedArray.quant]
  have hm3 : (3 : ℤ) ∈ ((initFromFloats 2 false [5]).update_values [5]).qvalues := by
    norm_num [initFromFloats, compute_quantization_parameters, deriveParams, listMax, listMin,
      STABILITY_CONST, initialOffset, quantizeOne, clip, rint, QuantizedArray.update_values,
      QuantizedArray.quant]
  exact C1_range_invariant (initFromFloats 2 false [5]) 2 false [5] 3 3 3 hm1 hm2 hm3

/-- C2 counterexample: the numerically-constant negative array `[-5]` at
8 bits (non-empty input, signed mode) yields `scale = -5/255 < 0`, refuting
strict positivity of the derived scale. -/
theorem C2_counterexample :
    (initFromFloats 8 true [-5]).scale = -5 / 255 ∧
    ¬ (0 < (initFromFloats 8 true [-5]).scale) := by
  norm_num [initFromFloats, compute_quantization_parameters, deriveParams, listMax, listMin,
    STABILITY_CONST, initialOffset]

/-- C2 (amended): for every non-empty input and `n_bits ≥ 1`, in both signed
and unsigned modes, the derived scale is nonzero; it is strictly positive
whenever the maximum input value is nonnegative, and also for every
non-degenerate input (`rmax - rmin ≥ STABILITY_CONST`), whatever the signs;
only a numerically-constant array of a negative value yields a (strictly
negative) non-positive scale. -/
theorem C2_scale_nonzero (n : ℕ) (s : Bool) (vals : List ℚ) (hn : 1 ≤ n)
    (_hne : vals ≠ []) :
    (initFromFloats n s vals).scale ≠ 0 ∧
    (0 ≤ listMax vals → 0 < (initFromFloats n s vals).scale) ∧
    (STABILITY_CONST ≤ listMax vals - listMin vals →
      0 < (initFromFloats n s vals).scale) := by
  rw [initFromFloats_scale]
  rcases lt_or_le (listMax vals - listMin vals) STABILITY_CONST with hd | hnd
  · rcases lt_or_le |listMax vals| STABILITY_CONST with hz | hz
    · rw [deriveParams_const_zero n _ vals hd hz]
      refine ⟨by norm_num, fun _ => by norm_num, fun hc => absurd hd (not_lt.mpr hc)⟩
    · rw [deriveParams_const_nonzero n _ vals hd (not_lt.mpr hz)]
      have hpow := two_pow_sub_one_pos n hn
      have hrm : listMax vals ≠ 0 := by
        intro hc
        rw [hc] at hz
        simp at hz
        linarith [stability_pos]
      refine ⟨div_ne_zero hrm (ne_of_gt hpow), fun hge => ?_,
        fun hc => absurd hd (not_lt.mpr hc)⟩
      exact div_pos (lt_of_le_of_ne hge (Ne.symm hrm)) hpow
  · rw [deriveParams_general n _ vals (not_lt.mpr hnd)]
    have hpow := two_pow_sub_one_pos n hn
    have hdiff : 0 < listMax vals - listMin vals := lt_of_lt_of_le stability_pos hnd
    exact ⟨ne_of_gt (div_pos hdiff hpow), fun _ => div_pos hdiff hpow,
      fun _ => div_pos hdiff hpow⟩

/-- Witness for C2 (amended) at the non-degenerate all-negative array
`[-10, -5]` with 8 bits, where the scale is positive by non-degeneracy. -/
theorem C2_scale_nonzero_witness :
    ((1 : ℕ) ≤ 8 ∧ [(-10 : ℚ), -5] ≠ []) ∧
    ((initFromFloats 8 false [-10, -5]).scale ≠ 0 ∧
     (0 ≤ listMax [-10, -5] → 0 < (initFromFloats 8 false [-10, -5]).scale) ∧
     (STABILITY_CONST ≤ listMax [-10, -5] - listMin [-10, -5] →
       0 < (initFromFloats 8 false [-10, -5]).scale)) :=
  ⟨⟨by norm_num, by simp⟩, C2_scale_nonzero 8 false [-10, -5] (by norm_num) (by simp)⟩

/-- C3: constructing from pre-quantized values fails with `InvalidArgument`
(and returns no object) when `scale` or `zero_point` is missing; with both
supplied it succeeds, stores a copy of the codes, and computes
`values = scale * (qvalues - zero_point)` elementwise. -/
theorem C3_prequantized_construction (n : ℕ) (s : Bool) (qs : List ℤ)
    (sc : Option ℚ) (zp : Option ℤ) :
    ((sc = none ∨ zp = none) →
      initFromQuantized n s qs sc zp = Except.error QuantError.invalidArgument) ∧
    (∀ s0 z0, sc = some s0 → zp = some z0 →
      ∃ a, initFromQuantized n s qs sc zp = Except.ok a ∧
        a.qvalues = qs ∧ a.scale = s0 ∧ a.zero_point = z0 ∧
        a.values = qs.map (fun q : ℤ => s0 * ((q : ℚ) - (z0 : ℚ)))) := by
  constructor
  · intro h
    rcases h with h | h <;> subst h
    · cases zp <;> rfl
    · cases sc <;> rfl
  · rintro s0 z0 rfl rfl
    refine ⟨_, rfl, rfl, rfl, rfl, ?_⟩
    simp only [initFromQuantized, dequantizeOne, sub_eq_add_neg]
    rfl

/-- Witness for C3 at concrete inputs: one missing-parameter failure and one
successful construction. -/
theorem C3_prequantized_construction_witness :
    initFromQuantized 8 false [7] none (some 0) = Except.error QuantError.invalidArgument ∧
    ∃ a, initFromQuantized 8 false [0, 128, 255] (some (2/255)) (some 128) = Except.ok a ∧
      a.qvalues = [0, 128, 255] ∧ a.scale = 2/255 ∧ a.zero_point = 128 ∧
      a.values = [(0 : ℤ), 128, 255].map (fun q : ℤ => (2/255 : ℚ) * ((q : ℚ) - ((128 : ℤ) : ℚ))) :=
  ⟨(C3_prequantized_construction 8 false [7] none (some 0)).1 (Or.inl rfl),
   (C3_prequantized_construction 8 false [0, 128, 255] (some (2/255)) (some 128)).2
     (2/255) 128 rfl rfl⟩

/-- C4: constructing from `[5, 5, 5]` with 8 bits, signed, takes the
nonzero-constant degenerate branch: the signed offset is forced to `0`,
`scale = 5/255`, `zero_point = 0`, and the codes are `[255, 255, 255]`. -/
theorem C4_degenerate_nonzero_constant :
    (initFromFloats 8 true [5, 5, 5]).offset = 0 ∧
    (initFromFloats 8 true [5, 5, 5]).scale = 5 / 255 ∧
    (initFromFloats 8 true [5, 5, 5]).zero_point = 0 ∧
    (initFromFloats 8 true [5, 5, 5]).qvalues = [255, 255, 255] := by
  norm_num [initFromFloats, compute_quantization_parameters, deriveParams, listMax, listMin,
    STABILITY_CONST, initialOffset, quantizeOne, clip, rint]

/-- C5: constructing from `[0, 0]` with 8 bits takes the near-zero degenerate
branch: `scale = 1`, `zero_point = rint (-rmin) = 0`, codes `[0, 0]`. -/
theorem C5_degenerate_zero_array :
    (initFromFloats 8 false [0, 0]).scale = 1 ∧
    (initFromFloats 8 false [0, 0]).zero_point = rint (-(listMin [0, 0])) ∧
    (initFromFloats 8 false [0, 0]).zero_point = 0 ∧
    (initFromFloats 8 false [0, 0]).qvalues = [0, 0] := by
  norm_num [initFromFloats, compute_quantization_parameters, deriveParams, listMax, listMin,
    STABILITY_CONST, initialOffset, quantizeOne, clip, rint]

/-- C6: constructing from `[-1, 0, 1]` with 8 bits, unsigned, takes the
general branch: `scale = 2/255`, `zero_point` is the rounding of the affine
formula, here `rint (255/2) = 128` (offset `0`), and the codes are
`[0, 128, 255]`. -/
theorem C6_general_case :
    (initFromFloats 8 false [-1, 0, 1]).offset = 0 ∧
    (initFromFloats 8 false [-1, 0, 1]).scale = 2 / 255 ∧
    (initFromFloats 8 false [-1, 0, 1]).zero_point =
      rint ((listMax [-1, 0, 1] * (-(0 : ℚ))
        - listMin [-1, 0, 1] * ((2 : ℚ) ^ 8 - 1 - (0 : ℚ)))
        / (listMax [-1, 0, 1] - listMin [-1, 0, 1])) ∧
    (initFromFloats 8 false [-1, 0, 1]).zero_point = rint (255 / 2) ∧
    (initFromFloats 8 false [-1, 0, 1]).zero_point = 128 ∧
    (initFromFloats 8 false [-1, 0, 1]).qvalues = [0, 128, 255] := by
  norm_num [initFromFloats, compute_quantization_parameters, deriveParams, listMax, listMin,
    STABILITY_CONST, initialOffset, quantizeOne, clip, rint]

/-- Round-trip error bound for one element in the general (non-degenerate)
branch: quantizing and dequantizing a value between `rmin` and `rmax` moves
it by at most `scale / 2`. -/
lemma roundtrip_elem (n : ℕ) (hn : 1 ≤ n) (off : ℤ) (rmin rmax v scale : ℚ) (zp : ℤ)
    (hscale : scale = (rmax - rmin) / ((2 : ℚ) ^ n - 1))
    (hzp : zp = rint ((rmax * (-(off : ℚ)) - rmin * ((2 : ℚ) ^ n - 1 - (off : ℚ)))
      / (rmax - rmin)))
    (h1 : rmin ≤ v) (h2 : v ≤ rmax)
    (hs : STABILITY_CONST ≤ rmax - rmin) :
    |dequantizeOne scale zp (quantizeOne scale zp off n v) - v| ≤ scale / 2 := by
  have hdiff : 0 < rmax - rmin := lt_of_lt_of_le stability_pos hs
  have hpow := two_pow_sub_one_pos n hn
  have hdne : rmax - rmin ≠ 0 := ne_of_gt hdiff
  have hpne : ((2 : ℚ) ^ n - 1) ≠ 0 := ne_of_gt hpow
  have hscalepos : 0 < scale := hscale ▸ div_pos hdiff hpow
  have hsne : scale ≠ 0 := ne_of_gt hscalepos
  set Z := (rmax * (-(off : ℚ)) - rmin * ((2 : ℚ) ^ n - 1 - (off : ℚ))) / (rmax - rmin)
    with hZdef
  have hzpn : |((zp : ℤ) : ℚ) - Z| ≤ 1/2 := by rw [hzp]; exact rint_abs_le Z
  rw [abs_le] at hzpn
  have key1 : rmin / scale + Z = -(off : ℚ) := by
    rw [hscale, hZdef]
    field_simp
    ring
  have key2 : rmax / scale + Z = (2 : ℚ) ^ n - 1 - (off : ℚ) := by
    rw [hscale, hZdef]
    field_simp
    ring
  have hv1 : rmin / scale ≤ v / scale := (div_le_div_iff_of_pos_right hscalepos).mpr h1
  have hv2 : v / scale ≤ rmax / scale := (div_le_div_iff_of_pos_right hscalepos).mpr h2
  have hlh : (-off : ℤ) ≤ 2 ^ n - 1 - off := by
    have h2p : (0 : ℤ) < 2 ^ n := pow_pos (by norm_num) n
    omega
  have hb1 : (((-off : ℤ)) : ℚ) - 1/2 ≤ v / scale + (zp : ℚ) := by
    push_cast
    linarith
  have hb2 : v / scale + (zp : ℚ) ≤ (((2 ^ n - 1 - off : ℤ)) : ℚ) + 1/2 := by
    push_cast
    linarith
  have hq := clip_rint_near (-off) (2 ^ n - 1 - off) (v / scale + (zp : ℚ)) hlh hb1 hb2
  show |dequantizeOne scale zp
    (clip (rint (v / scale + (zp : ℚ))) (-off) (2 ^ n - 1 - off)) - v| ≤ scale / 2
  have hkey : dequantizeOne scale zp
      (clip (rint (v / scale + (zp : ℚ))) (-off) (2 ^ n - 1 - off)) - v
      = scale * (((clip (rint (v / scale + (zp : ℚ))) (-off) (2 ^ n - 1 - off) : ℤ) : ℚ)
        - (v / scale + (zp : ℚ))) := by
    unfold dequantizeOne
    field_simp
    ring
  rw [hkey, abs_mul, abs_of_pos hscalepos]
  have hmul := mul_le_mul_of_nonneg_left hq hscalepos.le
  linarith

/-- C7: for a `QuantizedArray` built from a non-degenerate real array
(`rmax - rmin ≥ STABILITY_CONST`) with `n_bits ≥ 1`, applying `quant` then
`dequant` yields, elementwise, a value within `scale / 2` of the original. -/
theorem C7_roundtrip_bound (n : ℕ) (s : Bool) (vals : List ℚ) (hn : 1 ≤ n)
    (hnd : STABILITY_CONST ≤ listMax vals - listMin vals) :
    List.Forall₂ (fun x y => |y - x| ≤ (initFromFloats n s vals).scale / 2)
      vals ((initFromFloats n s vals).quant.dequant.values) := by
  have hmap : (initFromFloats n s vals).quant.dequant.values
      = (vals.map (quantizeOne (initFromFloats n s vals).scale
          (initFromFloats n s vals).zero_point (initFromFloats n s vals).offset n)).map
        (dequantizeOne (initFromFloats n s vals).scale
          (initFromFloats n s vals).zero_point) := rfl
  rw [hmap, List.map_map, List.forall₂_map_right_iff, List.forall₂_same]
  intro v hv
  simp only [Function.comp]
  have hgen := deriveParams_general n (initialOffset n s) vals (not_lt.mpr hnd)
  have hsc : (initFromFloats n s vals).scale
      = (listMax vals - listMin vals) / ((2 : ℚ) ^ n - 1) := by
    rw [initFromFloats_scale, hgen]
  have hzp : (initFromFloats n s vals).zero_point
      = rint ((listMax vals * (-((initialOffset n s : ℤ) : ℚ))
        - listMin vals * ((2 : ℚ) ^ n - 1 - ((initialOffset n s : ℤ) : ℚ)))
        / (listMax vals - listMin vals)) := by
    rw [initFromFloats_zero_point, hgen]
  have hoff : (initFromFloats n s vals).offset = initialOffset n s := by
    rw [initFromFloats_offset, hgen]
  rw [hoff]
  exact roundtrip_elem n hn (initialOffset n s) (listMin vals) (listMax vals) v
    (initFromFloats n s vals).scale (initFromFloats n s vals).zero_point hsc hzp
    (listMin_le vals v hv) (le_listMax vals v hv) hnd

/-- Witness for C7 at the general-case array `[-1, 0, 1]` with 8 bits. -/
theorem C7_roundtrip_bound_witness :
    ((1 : ℕ) ≤ 8 ∧ STABILITY_CONST ≤ listMax [-1, 0, 1] - listMin [-1, 0, 1]) ∧
    List.Forall₂ (fun x y => |y - x| ≤ (initFromFloats 8 false [-1, 0, 1]).scale / 2)
      [-1, 0, 1] ((initFromFloats 8 false [-1, 0, 1]).quant.dequant.values) :=
  ⟨⟨by norm_num, by norm_num [STABILITY_CONST, listMax, listMin]⟩,
   C7_roundtrip_bound 8 false [-1, 0, 1] (by norm_num)
     (by norm_num [STABILITY_CONST, listMax, listMin])⟩

/-- C8: `quant` is stable: calling it twice without changing `values` yields
the same `qvalues` as calling it once, because `quant` neither reads nor
writes anything it depends on except `qvalues` itself. -/
theorem C8_requantization_stability (a : QuantizedArray) :
    a.quant.quant.qvalues = a.quant.qvalues := rfl

/-- C9: `quant`, `dequant`, `update_values` and `update_qvalues` leave
`scale`, `zero_point`, `n_bits`, `is_signed` and `offset` unchanged;
`update_values` requantizes with the existing parameters and `update_qvalues`
re-dequantizes with them. -/
theorem C9_parameter_frame (a : QuantizedArray) (vs : List ℚ) (qs : List ℤ) :
    (a.quant.scale = a.scale ∧ a.quant.zero_point = a.zero_point ∧
     a.quant.n_bits = a.n_bits ∧ a.quant.is_signed = a.is_signed ∧
     a.quant.offset = a.offset) ∧
    (a.dequant.scale = a.scale ∧ a.dequant.zero_point = a.zero_point ∧
     a.dequant.n_bits = a.n_bits ∧ a.dequant.is_signed = a.is_signed ∧
     a.dequant.offset = a.offset) ∧
    ((a.update_values vs).scale = a.scale ∧ (a.update_values vs).zero_point = a.zero_point ∧
     (a.update_values vs).n_bits = a.n_bits ∧ (a.update_values vs).is_signed = a.is_signed ∧
     (a.update_values vs).offset = a.offset) ∧
    ((a.update_qvalues qs).scale = a.scale ∧ (a.update_qvalues qs).zero_point = a.zero_point ∧
     (a.update_qvalues qs).n_bits = a.n_bits ∧ (a.update_qvalues qs).is_signed = a.is_signed ∧
     (a.update_qvalues qs).offset = a.offset) ∧
    (a.update_values vs).qvalues = vs.map (quantizeOne a.scale a.zero_point a.offset a.n_bits) ∧
    (a.update_qvalues qs).values = qs.map (dequantizeOne a.scale a.zero_point) :=
  ⟨⟨rfl, rfl, rfl, rfl, rfl⟩, ⟨rfl, rfl, rfl, rfl, rfl⟩, ⟨rfl, rfl, rfl, rfl, rfl⟩,
   ⟨rfl, rfl, rfl, rfl, rfl⟩, rfl, rfl⟩

/-- C10: the code performs no bit-width validation: constructing from `[1]`
with 70 bits succeeds (no error path exists in the float-valued constructor)
and yields the code `2 ^ 70 - 1`, which exceeds `2 ^ 63 - 1`, the largest
value of the 64-bit integer storage the source casts to with `astype(int)`. -/
theorem C10_no_bitwidth_validation :
    (initFromFloats 70 false [1]).qvalues = [2 ^ 70 - 1] ∧
    ((2 : ℤ) ^ 63 - 1 < 2 ^ 70 - 1) := by
  norm_num [initFromFloats, compute_quantization_parameters, deriveParams, listMax, listMin,
    STABILITY_CONST, initialOffset, quantizeOne, clip, rint]
